import Mathlib

/-!
Verification of the notification-feed core (`feedly/feeds/notification_feed.py`).

The embedding is a shallow functional model of `NotificationFeed`:

* An `AggregatedActivity` carries the fields the core inspects
  (`activities`, `updated_at`, `seen_at`, `read_at`); timestamps are `Nat`.
* The backing score-ordered store is a list of `(value, score)` pairs for one
  user.  The serializer is modelled as the identity on activities (the spec
  requires the serialized form to be a pure deterministic, content-faithful
  function of the activity) and the rank score as `updated_at` (the spec
  requires the score to be monotone in `updated_at`).
* The counter cell holds the raw string a previous writer left there,
  abstracted by `CellVal`: a string `int()` parses (`num`), a truthy string
  `int()` rejects (`junk`), or the falsy empty string (`empty`).
* Mutating operations return, besides their Python return value, the new
  `FeedState` and a trace of the externally visible events they issue, in
  issue order (lock acquire/release, batched store commands, counter write,
  pubsub publish).  Python's in-place mutation of the `activities` list is
  modelled by returning the list content the caller's variable holds after
  the call.
* `datetime.datetime.today()` is modelled by a single `now : Nat` parameter
  for the whole call.
-/

namespace Feedly

/-- An aggregated activity group (`feedly.activity.AggregatedActivity`), with
the fields `NotificationFeed` reads or writes.  The raw member activities are
abstracted to a list of ids. -/
structure AggregatedActivity where
  activities : List Nat
  updated_at : Nat
  seen_at : Option Nat
  read_at : Option Nat
deriving DecidableEq, Repr

/-- `AggregatedActivity.is_seen()`: `seen_at` is not `None`. -/
def AggregatedActivity.isSeen (a : AggregatedActivity) : Bool :=
  a.seen_at.isSome

/-- `AggregatedActivity.is_read()`: `read_at` is not `None`. -/
def AggregatedActivity.isRead (a : AggregatedActivity) : Bool :=
  a.read_at.isSome

/-- Modelled from the spec: `Serializer.rank` (`get_activity_score`, defined in
the `AggregatedFeed` base class, not under `src/`) must be monotone in
`updated_at`; we take the score to be `updated_at` itself. -/
def activityScore (a : AggregatedActivity) : Nat :=
  a.updated_at

/-- The body of the per-activity loop of `mark_all` (lines 117-125): set
`seen_at` to the current time when `seen is True` and the entry is not yet
seen, then set `read_at` to the current time when `read is True` and the
entry is not yet read. -/
def mutateAct (seen read : Bool) (now : Nat) (a : AggregatedActivity) :
    AggregatedActivity :=
  let a1 := if seen && !a.isSeen then { a with seen_at := some now } else a
  if read && !a1.isRead then { a1 with read_at := some now } else a1

/-- The `changed` flag of the `mark_all` loop: true exactly when at least one
of the two branches fired for this activity. -/
def markChanged (seen read : Bool) (a : AggregatedActivity) : Bool :=
  (seen && !a.isSeen) || (read && !a.isRead)

/-- Raw content of the counter cell, as `int()` sees it: `num n` stands for
any string `int()` parses to `n` (this is what `redis.set(count_key, count)`
writes), `junk s` for a truthy string `int()` raises on, `empty` for the
falsy empty string. -/
inductive CellVal where
  | num (n : Int)
  | junk (s : String)
  | empty
deriving DecidableEq, Repr

/-- One user's slice of the backing state: the score-ordered entry collection
and the denormalized counter cell (`None` = key absent). -/
structure FeedState where
  store : List (AggregatedActivity × Nat)
  counter : Option CellVal
deriving DecidableEq, Repr

/-- The state of a user no operation has touched yet. -/
def FeedState.initial : FeedState :=
  { store := [], counter := none }

/-- `NotificationFeed.max_length`. -/
def max_length : Nat := 99

/-- Insert into a list sorted descending by `key`, before any element of
equal key met later: together with `sortByDesc` this is a stable descending
sort, the behaviour of Python's `list.sort(key=..., reverse=True)`. -/
def insertByDesc (key : α → Nat) (a : α) : List α → List α
  | [] => [a]
  | b :: l => if key b ≤ key a then a :: b :: l else b :: insertByDesc key a l

/-- Stable sort, descending by `key`. -/
def sortByDesc (key : α → Nat) : List α → List α
  | [] => []
  | a :: l => insertByDesc key a (sortByDesc key l)

/-- Modelled from the spec: the range read `self[:max_length]`
(`RedisSortedSetCache.__getitem__`, not under `src/`) returns the stored
values ordered by descending score, truncated to the requested length. -/
def readTop (st : List (AggregatedActivity × Nat)) : List AggregatedActivity :=
  ((sortByDesc (fun e => e.2) st).take max_length).map (fun e => e.1)

/-- Modelled from the spec: `ScoreOrderedStore.removeMany`
(`remove_many`, not under `src/`) deletes stored entries by value equality. -/
def removeMany (vals : List AggregatedActivity)
    (st : List (AggregatedActivity × Nat)) : List (AggregatedActivity × Nat) :=
  st.filter (fun e => decide (e.1 ∉ vals))

/-- Modelled from the spec: `ScoreOrderedStore.insertMany`
(`RedisSortedSetCache.add_many`, not under `src/`) upserts `(value, score)`
pairs: an existing entry with the same value gets the new score, members
stay unique. -/
def insertMany (pairs : List (AggregatedActivity × Nat))
    (st : List (AggregatedActivity × Nat)) : List (AggregatedActivity × Nat) :=
  pairs.foldl (fun acc p => acc.filter (fun e => decide (e.1 ≠ p.1)) ++ [p]) st

/-- `NotificationFeed.count_unseen` (lines 94-104): count the activities whose
`is_seen()` is false, reading the live top `max_length` when no collection is
supplied. -/
def count_unseen (s : FeedState) : Option (List AggregatedActivity) → Nat
  | some acts => acts.countP (fun a => !a.isSeen)
  | none => (readTop s.store).countP (fun a => !a.isSeen)

/-- Externally visible events a mutating operation issues, in issue order. -/
inductive Ev where
  /-- `self.redis.lock(self.lock_key, timeout=t)` entered. -/
  | lockAcquire (timeout : Nat)
  /-- the lock context manager exited. -/
  | lockRelease
  /-- the store mutation performed by the base-class `add_many`. -/
  | storeWrite
  /-- one batched `remove_many` call, with the removed values. -/
  | storeRemove (vals : List AggregatedActivity)
  /-- one batched `add_many` call, with the inserted `(value, score)` pairs. -/
  | storeAdd (pairs : List (AggregatedActivity × Nat))
  /-- `self.redis.set(self.count_key, count)`. -/
  | counterWrite (n : Nat)
  /-- `self.redis.publish(self.pubsub_key, count)`. -/
  | publish (n : Nat)
deriving DecidableEq, Repr

/-- Result of `denormalize_count`: the content of the caller's list variable
after the call (the code sorts the caller's list in place, line 83), the
returned count, the new feed state, and the issued events. -/
structure DenormOut where
  activities : List AggregatedActivity
  count : Nat
  state : FeedState
  trace : List Ev
deriving Repr

/-- `NotificationFeed.denormalize_count` (lines 78-92): sort the given
collection descending by `updated_at` (in place), take the first
`max_length`, count the unseen ones, write that count to the counter cell,
and publish it when a pubsub key is configured. -/
def denormalize_count (pubsub : Bool) (s : FeedState)
    (activities : List AggregatedActivity) : DenormOut :=
  let sorted := sortByDesc (fun a => a.updated_at) activities
  let current := sorted.take max_length
  let count := count_unseen s (some current)
  { activities := sorted
    count := count
    state := { s with counter := some (.num count) }
    trace := .counterWrite count :: (if pubsub then [.publish count] else []) }

/-- Result of a public mutating operation: the Python return value, the new
feed state, and the issued events. -/
structure OpOut where
  ret : List AggregatedActivity
  state : FeedState
  trace : List Ev
deriving Repr

/-- The `update_dict` of `mark_all` (lines 115-128) as an ordered list of
`(old deep-copied snapshot, mutated activity)` pairs, one per changed entry,
in feed order.  The sorted-set read yields pairwise distinct activities, so
the Python dict keyed by the old snapshot holds exactly these pairs in
insertion order. -/
def markAllPairs (seen read : Bool) (now : Nat)
    (acts : List AggregatedActivity) :
    List (AggregatedActivity × AggregatedActivity) :=
  acts.filterMap (fun a =>
    if markChanged seen read a then some (a, mutateAct seen read now a)
    else none)

/-- The store content after the batched swap of `mark_all` (lines 130-148):
remove the prior serialized forms of the changed entries (when any), insert
their new `(value, score)` pairs (when any). -/
def markAllStore (seen read : Bool) (now : Nat)
    (st : List (AggregatedActivity × Nat)) : List (AggregatedActivity × Nat) :=
  let pairs := markAllPairs seen read now (readTop st)
  let toDelete := pairs.map (fun p => p.1)
  let toAdd := pairs.map (fun p => (p.2, activityScore p.2))
  let st1 := if toDelete.isEmpty then st else removeMany toDelete st
  if toAdd.isEmpty then st1 else insertMany toAdd st1

/-- The events `mark_all` issues between lock acquire and release: the
batched swap (`remove_many` of the prior forms when any, base `add_many` of
the new pairs when any) followed by the events of `denormalize_count`. -/
def markAllBody (pubsub seen read : Bool) (now : Nat) (s : FeedState) :
    List Ev :=
  let activities := readTop s.store
  let pairs := markAllPairs seen read now activities
  let toDelete := pairs.map (fun p => p.1)
  let toAdd := pairs.map (fun p => (p.2, activityScore p.2))
  let mutated := activities.map (mutateAct seen read now)
  let d := denormalize_count pubsub
    { s with store := markAllStore seen read now s.store } mutated
  (if toDelete.isEmpty then [] else [.storeRemove toDelete])
    ++ (if toAdd.isEmpty then [] else [.storeAdd toAdd])
    ++ d.trace

/-- `NotificationFeed.mark_all` (lines 106-154): under the per-user lock
(hold timeout 2), read the top `max_length` activities, mutate the unseen /
unread ones, swap old serialized forms for new `(value, score)` pairs in one
pipelined block, re-denormalize the count over the full (mutated) read set,
and return the activities list (sorted in place by `denormalize_count`). -/
def mark_all (pubsub seen read : Bool) (now : Nat) (s : FeedState) : OpOut :=
  let activities := readTop s.store
  let mutated := activities.map (mutateAct seen read now)
  let d := denormalize_count pubsub
    { s with store := markAllStore seen read now s.store } mutated
  { ret := d.activities
    state := d.state
    trace := .lockAcquire 2 :: markAllBody pubsub seen read now s
               ++ [.lockRelease] }

/-- The events `add_many` issues between lock acquire and release. -/
def addManyBody (pubsub : Bool) (merged : List AggregatedActivity)
    (s : FeedState) : List Ev :=
  let d := denormalize_count pubsub
    { s with store := merged.map (fun a => (a, activityScore a)) } merged
  .storeWrite :: d.trace ++ (if pubsub then [.publish d.count] else [])

/-- `NotificationFeed.add_many` (lines 58-68), under the per-user lock
(hold timeout 2).

Modelled from the spec: the delegated `AggregatedFeed.add_many` (not under
`src/`) merges the new raw activities into the store contents through the
Aggregator and leaves the store holding the full resulting collection, which
it returns; the merge policy is out of scope, so the post-merge collection
`merged` is taken as an input.  `NotificationFeed.add_many` then denormalizes
the count over it, publishes the count once more when a pubsub key is
configured, and returns the collection (sorted in place by
`denormalize_count`). -/
def add_many (pubsub : Bool) (merged : List AggregatedActivity)
    (s : FeedState) : OpOut :=
  let d := denormalize_count pubsub
    { s with store := merged.map (fun a => (a, activityScore a)) } merged
  { ret := d.activities
    state := d.state
    trace := .lockAcquire 2 :: addManyBody pubsub merged s
               ++ [.lockRelease] }

/-- `NotificationFeed.get_denormalized_count` (lines 70-76):
`int(self.redis.get(self.count_key) or 0)`.  An absent key or falsy (empty)
value yields `0`; a parseable value yields its integer; a truthy unparseable
value makes `int()` raise `ValueError`, modelled as `none`. -/
def get_denormalized_count : Option CellVal → Option Int
  | none => some 0
  | some .empty => some 0
  | some (.num n) => some n
  | some (.junk _) => none

/-- Classification of lock events for the mutual-exclusion argument. -/
def isLockEv : Ev → Bool
  | .lockAcquire _ => true
  | .lockRelease => true
  | _ => false

/-- The publish payloads of a trace, in order. -/
def tracePublishes (tr : List Ev) : List Nat :=
  tr.filterMap (fun e => match e with | .publish n => some n | _ => none)

/-- The counter-cell writes of a trace, in order. -/
def traceCounterWrites (tr : List Ev) : List Nat :=
  tr.filterMap (fun e => match e with | .counterWrite n => some n | _ => none)

/-- The store-mutation events of a trace. -/
def traceStoreMutations (tr : List Ev) : List Ev :=
  tr.filter (fun e => match e with
    | .storeWrite => true
    | .storeRemove _ => true
    | .storeAdd _ => true
    | _ => false)

/-- The batched `remove_many` payloads of a trace. -/
def traceRemoves (tr : List Ev) : List (List AggregatedActivity) :=
  tr.filterMap (fun e => match e with | .storeRemove vs => some vs | _ => none)

/-- The batched insert payloads of a trace. -/
def traceAdds (tr : List Ev) : List (List (AggregatedActivity × Nat)) :=
  tr.filterMap (fun e => match e with | .storeAdd ps => some ps | _ => none)

/-- Scan a trace checking that every publish reports exactly the most recent
counter write before it (and that one exists). -/
def publishesMatchWrites : Option Nat → List Ev → Bool
  | _, [] => true
  | _, .counterWrite n :: t => publishesMatchWrites (some n) t
  | last, .publish n :: t =>
      (last == some n) && publishesMatchWrites last t
  | last, _ :: t => publishesMatchWrites last t

/-- A call of one of the two lock-guarded mutating operations. -/
inductive OpCall where
  | addMany (pubsub : Bool) (merged : List AggregatedActivity) (s : FeedState)
  | markAll (pubsub seen read : Bool) (now : Nat) (s : FeedState)

/-- The events a call issues while holding the lock. -/
def opBody : OpCall → List Ev
  | .addMany pubsub merged s => addManyBody pubsub merged s
  | .markAll pubsub seen read now s => markAllBody pubsub seen read now s

/-- The full event trace of a call. -/
def opTrace (c : OpCall) : List Ev :=
  .lockAcquire 2 :: opBody c ++ [.lockRelease]

/-- An interleaving of two event sequences, the first tagged `true` and the
second `false`, each keeping its own order. -/
inductive Merge :
    List Ev → List Ev → List (Bool × Ev) → Prop where
  | nil : Merge [] [] []
  | left {x : Ev} {xs ys : List Ev} {t : List (Bool × Ev)} :
      Merge xs ys t → Merge (x :: xs) ys ((true, x) :: t)
  | right {y : Ev} {xs ys : List Ev} {t : List (Bool × Ev)} :
      Merge xs ys t → Merge xs (y :: ys) ((false, y) :: t)

/-- Modelled from the spec: the per-user `MutationLock` contract (the
distributed lock is external) — at most one holder per user key at a time.
`lockValidB h t` checks an interleaved trace against it, `h` being the
current holder's tag: an acquire needs a free lock, a release needs the
releaser to be the holder. -/
def lockValidB : Option Bool → List (Bool × Ev) → Bool
  | none, (w, .lockAcquire _) :: t => lockValidB (some w) t
  | some _, (_, .lockAcquire _) :: _ => false
  | some h, (w, .lockRelease) :: t => (h == w) && lockValidB none t
  | none, (_, .lockRelease) :: _ => false
  | h, (_, _) :: t => lockValidB h t
  | _, [] => true

/-- A concrete unseen activity group, used by the closed instances below. -/
def demoUnseen : AggregatedActivity :=
  { activities := [0], updated_at := 5, seen_at := none, read_at := none }

/-- A concrete feed holding `demoUnseen` (score invariant satisfied), used
by the closed instances below. -/
def demoState : FeedState :=
  { store := [(demoUnseen, 5)], counter := none }

end Feedly

namespace Feedly

/-! ### Sorting toolkit -/

theorem insertByDesc_perm (key : α → Nat) (a : α) (l : List α) :
    (insertByDesc key a l).Perm (a :: l) := by
  induction l with
  | nil => simp [insertByDesc]
  | cons b l ih =>
    by_cases h : key b ≤ key a
    · simp [insertByDesc, h]
    · simp only [insertByDesc, if_neg h]
      exact (ih.cons b).trans (List.Perm.swap a b l)

theorem sortByDesc_perm (key : α → Nat) (l : List α) :
    (sortByDesc key l).Perm l := by
  induction l with
  | nil => simp [sortByDesc]
  | cons a l ih =>
    exact (insertByDesc_perm key a (sortByDesc key l)).trans (ih.cons a)

theorem insertByDesc_pairwise (key : α → Nat) (a : α) (l : List α)
    (h : l.Pairwise (fun x y => key y ≤ key x)) :
    (insertByDesc key a l).Pairwise (fun x y => key y ≤ key x) := by
  induction l with
  | nil => simp [insertByDesc]
  | cons b l ih =>
    obtain ⟨hb, hl⟩ := List.pairwise_cons.mp h
    by_cases hba : key b ≤ key a
    · simp only [insertByDesc, if_pos hba]
      refine List.Pairwise.cons ?_ (List.Pairwise.cons hb hl)
      intro x hx
      rw [List.mem_cons] at hx
      rcases hx with rfl | hx
      · exact hba
      · exact le_trans (hb x hx) hba
    · simp only [insertByDesc, if_neg hba]
      refine List.Pairwise.cons ?_ (ih hl)
      intro x hx
      have hx' : x ∈ a :: l := (insertByDesc_perm key a l).mem_iff.mp hx
      rw [List.mem_cons] at hx'
      rcases hx' with rfl | hx'
      · exact le_of_lt (lt_of_not_le hba)
      · exact hb x hx'

theorem sortByDesc_pairwise (key : α → Nat) (l : List α) :
    (sortByDesc key l).Pairwise (fun x y => key y ≤ key x) := by
  induction l with
  | nil => simp [sortByDesc]
  | cons a l ih => exact insertByDesc_pairwise key a _ ih

theorem sortByDesc_of_pairwise (key : α → Nat) (l : List α)
    (h : l.Pairwise (fun x y => key y ≤ key x)) :
    sortByDesc key l = l := by
  induction l with
  | nil => rfl
  | cons a l ih =>
    obtain ⟨ha, hl⟩ := List.pairwise_cons.mp h
    rw [sortByDesc, ih hl]
    cases l with
    | nil => rfl
    | cons b l =>
      have hba : key b ≤ key a := ha b (by simp)
      simp [insertByDesc, hba]

theorem insertByDesc_congr (k1 k2 : α → Nat) (a : α) (l : List α)
    (ha : k1 a = k2 a) (hl : ∀ x ∈ l, k1 x = k2 x) :
    insertByDesc k1 a l = insertByDesc k2 a l := by
  induction l with
  | nil => rfl
  | cons b l ih =>
    have hb : k1 b = k2 b := hl b (by simp)
    by_cases h : k1 b ≤ k1 a
    · have h' : k2 b ≤ k2 a := by rw [← hb, ← ha]; exact h
      simp only [insertByDesc, if_pos h, if_pos h']
    · have h' : ¬ k2 b ≤ k2 a := by rw [← hb, ← ha]; exact h
      simp only [insertByDesc, if_neg h, if_neg h']
      rw [ih (fun x hx => hl x (List.mem_cons_of_mem b hx))]

theorem sortByDesc_congr (k1 k2 : α → Nat) (l : List α)
    (h : ∀ x ∈ l, k1 x = k2 x) :
    sortByDesc k1 l = sortByDesc k2 l := by
  induction l with
  | nil => rfl
  | cons a l ih =>
    have hl : ∀ x ∈ l, k1 x = k2 x :=
      fun x hx => h x (List.mem_cons_of_mem a hx)
    rw [sortByDesc, sortByDesc, ih hl]
    refine insertByDesc_congr k1 k2 a _ (h a (by simp)) ?_
    intro x hx
    exact hl x ((sortByDesc_perm k2 l).mem_iff.mp hx)

theorem insertByDesc_map (key : β → Nat) (h : α → β) (a : α) (l : List α) :
    insertByDesc key (h a) (l.map h)
      = (insertByDesc (fun x => key (h x)) a l).map h := by
  induction l with
  | nil => rfl
  | cons b l ih =>
    by_cases hba : key (h b) ≤ key (h a)
    · simp [insertByDesc, hba]
    · simp [insertByDesc, hba, ih]

theorem sortByDesc_map (key : β → Nat) (h : α → β) (l : List α) :
    sortByDesc key (l.map h) = (sortByDesc (fun x => key (h x)) l).map h := by
  induction l with
  | nil => rfl
  | cons a l ih => simp [sortByDesc, ih, insertByDesc_map]

theorem sorted_eq_of_perm (key : α → Nat) (l1 l2 : List α)
    (hp : l1.Perm l2)
    (h1 : l1.Pairwise (fun x y => key y ≤ key x))
    (h2 : l2.Pairwise (fun x y => key y ≤ key x))
    (hnd : (l1.map key).Nodup) : l1 = l2 := by
  haveI : IsAntisymm α (fun x y => key x > key y) :=
    ⟨fun a b hab hba => absurd (lt_trans hab hba) (lt_irrefl _)⟩
  have hnd2 : (l2.map key).Nodup := ((hp.map key).nodup_iff).mp hnd
  have hne1 : l1.Pairwise (fun x y => key x ≠ key y) :=
    List.pairwise_map.mp hnd
  have hne2 : l2.Pairwise (fun x y => key x ≠ key y) :=
    List.pairwise_map.mp hnd2
  have hs1 : List.Sorted (fun x y => key x > key y) l1 :=
    (h1.and hne1).imp (fun h => lt_of_le_of_ne h.1 (Ne.symm h.2))
  have hs2 : List.Sorted (fun x y => key x > key y) l2 :=
    (h2.and hne2).imp (fun h => lt_of_le_of_ne h.1 (Ne.symm h.2))
  exact List.eq_of_perm_of_sorted hp hs1 hs2

/-- Sorting commutes with an entrywise key-preserving replacement when the
keys are pairwise distinct. -/
theorem sort_replace (key : α → Nat) (f : α → α) (l l' : List α)
    (hk : ∀ e, key (f e) = key e)
    (hperm : l'.Perm (l.map f))
    (hnd : (l.map key).Nodup) :
    sortByDesc key l' = (sortByDesc key l).map f := by
  have hmapkey : l.map (fun e => key (f e)) = l.map key :=
    List.map_congr_left (fun a _ => hk a)
  have hp : (sortByDesc key l').Perm ((sortByDesc key l).map f) :=
    ((sortByDesc_perm key l').trans hperm).trans
      ((sortByDesc_perm key l).map f).symm
  have h2 : ((sortByDesc key l).map f).Pairwise (fun x y => key y ≤ key x) := by
    refine List.pairwise_map.mpr ?_
    refine (sortByDesc_pairwise key l).imp ?_
    intro a b hab
    rw [hk, hk]
    exact hab
  have hnd1 : ((sortByDesc key l').map key).Nodup := by
    refine ((sortByDesc_perm key l').map key).nodup_iff.mpr ?_
    have : (l.map f).map key = l.map key := by
      rw [List.map_map]
      exact hmapkey
    exact ((hperm.map key).nodup_iff).mpr (this ▸ hnd)
  exact sorted_eq_of_perm key _ _ hp (sortByDesc_pairwise key l') h2 hnd1

/-! ### Store-operation lemmas -/

theorem insertMany_cons (p : AggregatedActivity × Nat) (ps st) :
    insertMany (p :: ps) st
      = insertMany ps (st.filter (fun e => decide (e.1 ≠ p.1)) ++ [p]) := rfl

theorem insertMany_mem {ps st} (e : AggregatedActivity × Nat)
    (h : e ∈ insertMany ps st) : e ∈ st ∨ e ∈ ps := by
  induction ps generalizing st with
  | nil => exact Or.inl h
  | cons p ps ih =>
    rw [insertMany_cons] at h
    rcases ih h with h' | h'
    · rw [List.mem_append] at h'
      rcases h' with h' | h'
      · exact Or.inl (List.mem_of_mem_filter h')
      · rw [List.mem_singleton] at h'
        exact Or.inr (h' ▸ List.mem_cons_self p ps)
    · exact Or.inr (List.mem_cons_of_mem p h')

theorem insertMany_eq_append (ps st)
    (h1 : ∀ p ∈ ps, ∀ e ∈ st, e.1 ≠ p.1)
    (h2 : (ps.map (fun p => p.1)).Nodup) :
    insertMany ps st = st ++ ps := by
  induction ps generalizing st with
  | nil => simp [insertMany]
  | cons p ps ih =>
    rw [insertMany_cons]
    have hfl : st.filter (fun e => decide (e.1 ≠ p.1)) = st := by
      refine List.filter_eq_self.mpr ?_
      intro e he
      exact decide_eq_true (h1 p (List.mem_cons_self p ps) e he)
    rw [hfl]
    obtain ⟨hp, h2'⟩ := List.pairwise_cons.mp h2
    have h1' : ∀ q ∈ ps, ∀ e ∈ st ++ [p], e.1 ≠ q.1 := by
      intro q hq e he
      rw [List.mem_append, List.mem_singleton] at he
      rcases he with he | rfl
      · exact h1 q (List.mem_cons_of_mem p hq) e he
      · exact hp q.1 (List.mem_map_of_mem (fun r => r.1) hq)
    rw [ih (st ++ [p]) h1' h2']
    simp

/-! ### Mutation-loop lemmas -/

/-- Closed form of the `mark_all` loop body: the two conditional field
updates, each independent of the other. -/
theorem mutateAct_def (seen read : Bool) (now : Nat)
    (a : AggregatedActivity) :
    mutateAct seen read now a
      = { a with
          seen_at := if seen && !a.isSeen then some now else a.seen_at
          read_at := if read && !a.isRead then some now else a.read_at } := by
  by_cases h1 : (seen && !a.isSeen) = true <;>
    by_cases h2 : (read && !a.isRead) = true <;>
      simp [mutateAct, AggregatedActivity.isRead, h1, h2] <;>
        (try (split <;> rfl))

theorem mutateAct_seen_at (seen read : Bool) (now : Nat)
    (a : AggregatedActivity) :
    (mutateAct seen read now a).seen_at
      = if seen && !a.isSeen then some now else a.seen_at := by
  rw [mutateAct_def]

theorem mutateAct_read_at (seen read : Bool) (now : Nat)
    (a : AggregatedActivity) :
    (mutateAct seen read now a).read_at
      = if read && !a.isRead then some now else a.read_at := by
  rw [mutateAct_def]

theorem mutateAct_updated_at (seen read : Bool) (now : Nat)
    (a : AggregatedActivity) :
    (mutateAct seen read now a).updated_at = a.updated_at := by
  rw [mutateAct_def]

theorem mutateAct_activities (seen read : Bool) (now : Nat)
    (a : AggregatedActivity) :
    (mutateAct seen read now a).activities = a.activities := by
  rw [mutateAct_def]

theorem mutateAct_eq_self (seen read : Bool) (now : Nat)
    (a : AggregatedActivity) (h : markChanged seen read a = false) :
    mutateAct seen read now a = a := by
  simp only [markChanged, Bool.or_eq_false_iff] at h
  simp [mutateAct, h.1, h.2]

theorem mutateAct_ne_self (seen read : Bool) (now : Nat)
    (a : AggregatedActivity) (h : markChanged seen read a = true) :
    mutateAct seen read now a ≠ a := by
  simp only [markChanged, Bool.or_eq_true] at h
  intro hc
  rcases h with h | h
  · simp only [Bool.and_eq_true] at h
    have h1 : a.seen_at = none := by
      simpa [AggregatedActivity.isSeen, Option.isSome_iff_ne_none] using h.2
    have h2 := mutateAct_seen_at seen read now a
    rw [hc, h.1, h.2, h1] at h2
    simp at h2
  · simp only [Bool.and_eq_true] at h
    have h1 : a.read_at = none := by
      simpa [AggregatedActivity.isRead, Option.isSome_iff_ne_none] using h.2
    have h2 := mutateAct_read_at seen read now a
    rw [hc, h.1, h.2, h1] at h2
    simp at h2

/-- A changed (hence previously unseen or unread) snapshot can never equal
the post-mutation form of any activity of the same `mark_all` call. -/
theorem old_ne_new (seen read : Bool) (now2 : Nat)
    (a b : AggregatedActivity) (h : markChanged seen read a = true) :
    mutateAct seen read now2 b ≠ a := by
  simp only [markChanged, Bool.or_eq_true, Bool.and_eq_true] at h
  intro hc
  rcases h with ⟨hflag, hs⟩ | ⟨hflag, hs⟩
  · have h1 : a.seen_at = none := by
      simpa [AggregatedActivity.isSeen, Option.isSome_iff_ne_none] using hs
    have h2 := mutateAct_seen_at seen read now2 b
    rw [hc, h1, hflag] at h2
    by_cases hb : b.isSeen = true
    · rw [hb] at h2
      simp only [Bool.not_true, Bool.and_false, Bool.false_eq_true,
        if_false] at h2
      rw [AggregatedActivity.isSeen, ← h2] at hb
      simp at hb
    · rw [Bool.not_eq_true] at hb
      rw [hb] at h2
      simp at h2
  · have h1 : a.read_at = none := by
      simpa [AggregatedActivity.isRead, Option.isSome_iff_ne_none] using hs
    have h2 := mutateAct_read_at seen read now2 b
    rw [hc, h1, hflag] at h2
    by_cases hb : b.isRead = true
    · rw [hb] at h2
      simp only [Bool.not_true, Bool.and_false, Bool.false_eq_true,
        if_false] at h2
      rw [AggregatedActivity.isRead, ← h2] at hb
      simp at hb
    · rw [Bool.not_eq_true] at hb
      rw [hb] at h2
      simp at h2

theorem markAllPairs_eq (seen read : Bool) (now : Nat)
    (acts : List AggregatedActivity) :
    markAllPairs seen read now acts
      = (acts.filter (markChanged seen read)).map
          (fun a => (a, mutateAct seen read now a)) := by
  induction acts with
  | nil => rfl
  | cons a l ih =>
    simp only [markAllPairs, List.filterMap_cons] at *
    by_cases h : markChanged seen read a
    · simp [h, List.filter_cons, ih]
    · simp [h, List.filter_cons, ih]

/-! ### Range-read lemmas -/

theorem markAllPairs_fst (seen read : Bool) (now : Nat)
    (acts : List AggregatedActivity) :
    (markAllPairs seen read now acts).map (fun p => p.1)
      = acts.filter (markChanged seen read) := by
  rw [markAllPairs_eq, List.map_map]
  exact List.map_id' _

theorem readTop_entries (st : List (AggregatedActivity × Nat))
    (a : AggregatedActivity) (ha : a ∈ readTop st) :
    ∃ e ∈ st, e.1 = a := by
  obtain ⟨e, he, rfl⟩ := List.mem_map.mp ha
  exact ⟨e, (sortByDesc_perm (fun e => e.2) st).mem_iff.mp
    (List.mem_of_mem_take he), rfl⟩

theorem readTop_mem_store (st : List (AggregatedActivity × Nat))
    (hscore : ∀ e ∈ st, e.2 = e.1.updated_at)
    (a : AggregatedActivity) (ha : a ∈ readTop st) :
    (a, a.updated_at) ∈ st := by
  obtain ⟨e, he, rfl⟩ := readTop_entries st a ha
  have h := hscore e he
  cases e with
  | mk v sc =>
    dsimp at h ⊢
    rw [← h]
    exact he

theorem readTop_upd_nodup (st : List (AggregatedActivity × Nat))
    (hnd : (st.map (fun e => e.1.updated_at)).Nodup) :
    ((readTop st).map (fun a => a.updated_at)).Nodup := by
  have h1 : ((sortByDesc (fun e => e.2) st).map
      (fun e => e.1.updated_at)).Nodup :=
    ((sortByDesc_perm (fun e => e.2) st).map
      (fun e => e.1.updated_at)).nodup_iff.mpr hnd
  have h2 : (readTop st).map (fun a => a.updated_at)
      = ((sortByDesc (fun e => e.2) st).map
          (fun e => e.1.updated_at)).take max_length := by
    rw [readTop, List.map_map, List.map_take]
    rfl
  rw [h2]
  exact List.Nodup.sublist (List.take_sublist _ _) h1

theorem readTop_nodup (st : List (AggregatedActivity × Nat))
    (hnd : (st.map (fun e => e.1.updated_at)).Nodup) :
    (readTop st).Nodup :=
  List.Nodup.of_map _ (readTop_upd_nodup st hnd)

theorem readTop_length_le (st : List (AggregatedActivity × Nat)) :
    (readTop st).length ≤ max_length := by
  simp only [readTop, List.length_map, List.length_take]
  exact min_le_left _ _

theorem readTop_pairwise (st : List (AggregatedActivity × Nat))
    (hscore : ∀ e ∈ st, e.2 = e.1.updated_at) :
    (readTop st).Pairwise (fun x y => y.updated_at ≤ x.updated_at) := by
  refine List.pairwise_map.mpr ?_
  have h1 : ((sortByDesc (fun e => e.2) st).take max_length).Pairwise
      (fun x y => y.2 ≤ x.2) :=
    List.Pairwise.sublist (List.take_sublist _ _)
      (sortByDesc_pairwise (fun e => e.2) st)
  refine List.Pairwise.imp_of_mem ?_ h1
  intro e1 e2 h1m h2m hle
  have m1 : e1 ∈ st := (sortByDesc_perm (fun e => e.2) st).mem_iff.mp
    (List.mem_of_mem_take h1m)
  have m2 : e2 ∈ st := (sortByDesc_perm (fun e => e.2) st).mem_iff.mp
    (List.mem_of_mem_take h2m)
  rw [← hscore e1 m1, ← hscore e2 m2]
  exact hle

theorem readTop_sorted_upd (st : List (AggregatedActivity × Nat))
    (hscore : ∀ e ∈ st, e.2 = e.1.updated_at) :
    sortByDesc (fun a => a.updated_at) (readTop st) = readTop st :=
  sortByDesc_of_pairwise _ _ (readTop_pairwise st hscore)

/-- Reading the top of the store is the same as sorting the stored values by
descending `updated_at` and truncating, when the stored scores satisfy the
score invariant. -/
theorem readTop_eq_sortUpd (st : List (AggregatedActivity × Nat))
    (hscore : ∀ e ∈ st, e.2 = e.1.updated_at) :
    (sortByDesc (fun a => a.updated_at)
        (st.map (fun e => e.1))).take max_length = readTop st := by
  rw [sortByDesc_map]
  rw [sortByDesc_congr (fun e => (e.1).updated_at) (fun e => e.2) st
    (fun e he => (hscore e he).symm)]
  rw [← List.map_take]
  rfl

/-! ### The batched swap as an entrywise replacement -/

/-- The value-identity swap (remove prior forms, insert new pairs) is, up to
order, the entrywise replacement of the swapped values, provided scores obey
the score invariant and the ranking keys are pairwise distinct. -/
theorem swap_perm (st : List (AggregatedActivity × Nat))
    (T : List AggregatedActivity)
    (g : AggregatedActivity → AggregatedActivity)
    (hg : ∀ o, (g o).updated_at = o.updated_at)
    (hscore : ∀ e ∈ st, e.2 = e.1.updated_at)
    (hnd : (st.map (fun e => e.1.updated_at)).Nodup)
    (hT : ∀ o ∈ T, (o, o.updated_at) ∈ st)
    (hTnd : T.Nodup) :
    (insertMany (T.map (fun o => (g o, activityScore (g o))))
        (removeMany T st)).Perm
      (st.map (fun e => if e.1 ∈ T then (g e.1, e.2) else e)) := by
  have stNodup : st.Nodup := List.Nodup.of_map _ hnd
  have injUpd : ∀ x ∈ st, ∀ y ∈ st, x.1.updated_at = y.1.updated_at → x = y :=
    fun x hx y hy => List.inj_on_of_nodup_map hnd hx hy
  have hTinj : ∀ o1 ∈ T, ∀ o2 ∈ T, o1.updated_at = o2.updated_at → o1 = o2 :=
    fun o1 h1 o2 h2 he =>
      congrArg Prod.fst (injUpd _ (hT o1 h1) _ (hT o2 h2) he)
  -- the new pairs reduce the upsert to a plain append
  have hvalsNodup : ((T.map (fun o => (g o, activityScore (g o)))).map
      (fun p => p.1)).Nodup := by
    rw [List.map_map]
    refine List.Nodup.map_on ?_ hTnd
    intro o1 h1 o2 h2 he
    refine hTinj o1 h1 o2 h2 ?_
    have h3 : (g o1).updated_at = (g o2).updated_at := by
      simpa using congrArg AggregatedActivity.updated_at he
    rw [hg o1, hg o2] at h3
    exact h3
  have hdisj : ∀ p ∈ T.map (fun o => (g o, activityScore (g o))),
      ∀ e ∈ removeMany T st, e.1 ≠ p.1 := by
    intro p hp e he hc
    obtain ⟨o, ho, rfl⟩ := List.mem_map.mp hp
    have heSt : e ∈ st := List.mem_of_mem_filter he
    have heT : e.1 ∉ T := by simpa using List.of_mem_filter he
    have hupd : e.1.updated_at = o.updated_at := by
      rw [hc]
      exact hg o
    have he' : e = (o, o.updated_at) := injUpd e heSt _ (hT o ho) hupd
    rw [he'] at heT
    exact heT ho
  rw [insertMany_eq_append _ _ hdisj hvalsNodup]
  -- compare with the partition of the store into kept and swapped entries
  have hkeep : (st.filter (fun e => decide (e.1 ∉ T))).map
      (fun e => if e.1 ∈ T then (g e.1, e.2) else e)
        = st.filter (fun e => decide (e.1 ∉ T)) := by
    have h4 : ∀ e ∈ st.filter (fun e => decide (e.1 ∉ T)),
        (if e.1 ∈ T then (g e.1, e.2) else e) = e := by
      intro e he
      have hmem := List.of_mem_filter he
      rw [if_neg (by simpa using hmem)]
    calc (st.filter (fun e => decide (e.1 ∉ T))).map
          (fun e => if e.1 ∈ T then (g e.1, e.2) else e)
        = (st.filter (fun e => decide (e.1 ∉ T))).map (fun e => e) :=
          List.map_congr_left h4
      _ = st.filter (fun e => decide (e.1 ∉ T)) := List.map_id' _
  have hswapped : (st.filter (fun e => decide (e.1 ∈ T))).Perm
      (T.map (fun o => (o, o.updated_at))) := by
    refine (List.perm_ext_iff_of_nodup (stNodup.filter _)
      (List.Nodup.map_on ?_ hTnd)).mpr ?_
    · intro o1 h1 o2 h2 he
      exact congrArg Prod.fst he
    · intro e
      constructor
      · intro he
        have heSt := List.mem_of_mem_filter he
        have heT : e.1 ∈ T := by simpa using List.of_mem_filter he
        have he' : e = (e.1, e.1.updated_at) := by
          have h5 := hscore e heSt
          cases e with
          | mk v sc =>
            dsimp at h5 ⊢
            rw [h5]
        rw [he']
        exact List.mem_map_of_mem _ heT
      · intro he
        obtain ⟨o, ho, rfl⟩ := List.mem_map.mp he
        refine List.mem_filter.mpr ⟨hT o ho, by simpa using ho⟩
  have hswapmap : ((st.filter (fun e => decide (e.1 ∈ T))).map
      (fun e => if e.1 ∈ T then (g e.1, e.2) else e)).Perm
        (T.map (fun o => (g o, activityScore (g o)))) := by
    refine (hswapped.map _).trans ?_
    rw [List.map_map]
    have h6 : ∀ o ∈ T,
        ((fun e => if e.1 ∈ T then (g e.1, e.2) else e) ∘
          (fun o => (o, o.updated_at))) o = (g o, activityScore (g o)) := by
      intro o ho
      simp only [Function.comp]
      rw [if_pos (by simpa using ho)]
      simp [activityScore, hg o]
    rw [List.map_congr_left h6]
  have hpart : ((st.filter (fun e => decide (e.1 ∉ T))) ++
      (st.filter (fun e => decide (e.1 ∈ T)))).Perm st := by
    have h0 := List.filter_append_perm (fun e => decide (e.1 ∉ T)) st
    have h7 : st.filter (fun e => !decide (e.1 ∉ T))
        = st.filter (fun e => decide (e.1 ∈ T)) := by
      refine List.filter_congr ?_
      intro e _
      by_cases h : e.1 ∈ T <;> simp [h]
    rw [h7] at h0
    exact h0
  have step1 : (removeMany T st
      ++ T.map (fun o => (g o, activityScore (g o)))).Perm
        (st.filter (fun e => decide (e.1 ∉ T))
          ++ (st.filter (fun e => decide (e.1 ∈ T))).map
            (fun e => if e.1 ∈ T then (g e.1, e.2) else e)) :=
    List.Perm.append_left _ hswapmap.symm
  have step2 : ((st.filter (fun e => decide (e.1 ∉ T))
      ++ st.filter (fun e => decide (e.1 ∈ T))).map
        (fun e => if e.1 ∈ T then (g e.1, e.2) else e))
      = st.filter (fun e => decide (e.1 ∉ T))
          ++ (st.filter (fun e => decide (e.1 ∈ T))).map
            (fun e => if e.1 ∈ T then (g e.1, e.2) else e) := by
    rw [List.map_append, hkeep]
  refine step1.trans ?_
  rw [← step2]
  exact hpart.map _

/-! ### The store after `mark_all` -/

theorem markAllStore_unfold (seen read : Bool) (now : Nat)
    (st : List (AggregatedActivity × Nat)) :
    markAllStore seen read now st
      = (if ((readTop st).filter (markChanged seen read)).isEmpty
            then st
            else insertMany
              (((readTop st).filter (markChanged seen read)).map
                (fun o => (mutateAct seen read now o,
                  activityScore (mutateAct seen read now o))))
              (removeMany ((readTop st).filter (markChanged seen read)) st))
      := by
  simp only [markAllStore, markAllPairs_fst]
  rw [markAllPairs_eq, List.map_map]
  by_cases h : ((readTop st).filter (markChanged seen read)).isEmpty
  · rw [List.isEmpty_iff] at h
    simp [h]
  · rw [Bool.not_eq_true, List.isEmpty_eq_false] at h
    rw [if_neg (by simpa using h), if_neg (by simp [h]),
      if_neg (by simp [h])]
    rfl

theorem markAllStore_empty (seen read : Bool) (now : Nat)
    (st : List (AggregatedActivity × Nat))
    (h : (readTop st).filter (markChanged seen read) = []) :
    markAllStore seen read now st = st := by
  rw [markAllStore_unfold, h]
  rfl

theorem markAllStore_perm (seen read : Bool) (now : Nat)
    (st : List (AggregatedActivity × Nat))
    (hscore : ∀ e ∈ st, e.2 = e.1.updated_at)
    (hnd : (st.map (fun e => e.1.updated_at)).Nodup) :
    (markAllStore seen read now st).Perm
      (st.map (fun e =>
        if e.1 ∈ (readTop st).filter (markChanged seen read)
        then (mutateAct seen read now e.1, e.2) else e)) := by
  by_cases hT : (readTop st).filter (markChanged seen read) = []
  · rw [markAllStore_empty seen read now st hT, hT]
    have h1 : ∀ e ∈ st,
        (if e.1 ∈ ([] : List AggregatedActivity)
         then (mutateAct seen read now e.1, e.2) else e) = e := by
      intro e _
      simp
    rw [List.map_congr_left h1, List.map_id']
  · rw [markAllStore_unfold,
      if_neg (by rw [Bool.not_eq_true, List.isEmpty_eq_false]; exact hT)]
    refine swap_perm st _ _ (mutateAct_updated_at seen read now) hscore hnd
      ?_ ?_
    · intro o ho
      exact readTop_mem_store st hscore o (List.mem_of_mem_filter ho)
    · exact (readTop_nodup st hnd).filter _

theorem markAllStore_scoreInv (seen read : Bool) (now : Nat)
    (st : List (AggregatedActivity × Nat))
    (hscore : ∀ e ∈ st, e.2 = e.1.updated_at) :
    ∀ e ∈ markAllStore seen read now st, e.2 = e.1.updated_at := by
  intro e he
  rw [markAllStore_unfold] at he
  by_cases hT : ((readTop st).filter (markChanged seen read)).isEmpty
  · rw [if_pos hT] at he
    exact hscore e he
  · rw [if_neg hT] at he
    rcases insertMany_mem e he with h | h
    · exact hscore e (List.mem_of_mem_filter h)
    · obtain ⟨o, _, rfl⟩ := List.mem_map.mp h
      rfl

theorem markAllStore_nodupUpd (seen read : Bool) (now : Nat)
    (st : List (AggregatedActivity × Nat))
    (hscore : ∀ e ∈ st, e.2 = e.1.updated_at)
    (hnd : (st.map (fun e => e.1.updated_at)).Nodup) :
    ((markAllStore seen read now st).map
      (fun e => e.1.updated_at)).Nodup := by
  have hperm := (markAllStore_perm seen read now st hscore hnd).map
    (fun e => e.1.updated_at)
  refine hperm.nodup_iff.mpr ?_
  rw [List.map_map]
  have h1 : ∀ e ∈ st,
      ((fun e => e.1.updated_at) ∘ (fun e =>
        if e.1 ∈ (readTop st).filter (markChanged seen read)
        then (mutateAct seen read now e.1, e.2) else e)) e
      = e.1.updated_at := by
    intro e _
    simp only [Function.comp]
    by_cases h : e.1 ∈ (readTop st).filter (markChanged seen read)
    · rw [if_pos h]
      exact mutateAct_updated_at seen read now e.1
    · rw [if_neg h]
  rw [List.map_congr_left h1]
  exact hnd

/-- The top of the store after the swap is exactly the mutated read set. -/
theorem markAllStore_readTop (seen read : Bool) (now : Nat)
    (st : List (AggregatedActivity × Nat))
    (hscore : ∀ e ∈ st, e.2 = e.1.updated_at)
    (hnd : (st.map (fun e => e.1.updated_at)).Nodup) :
    readTop (markAllStore seen read now st)
      = (readTop st).map (mutateAct seen read now) := by
  have hk : ∀ e : AggregatedActivity × Nat,
      (fun e : AggregatedActivity × Nat => e.2)
        ((fun e => if e.1 ∈ (readTop st).filter (markChanged seen read)
          then (mutateAct seen read now e.1, e.2) else e) e) = e.2 := by
    intro e
    by_cases h : e.1 ∈ (readTop st).filter (markChanged seen read)
    · simp only [if_pos h]
    · simp only [if_neg h]
  have hnd2 : (st.map (fun e => e.2)).Nodup := by
    rw [List.map_congr_left hscore]
    exact hnd
  have hsort : sortByDesc (fun e => e.2) (markAllStore seen read now st)
      = (sortByDesc (fun e => e.2) st).map
          (fun e => if e.1 ∈ (readTop st).filter (markChanged seen read)
            then (mutateAct seen read now e.1, e.2) else e) :=
    sort_replace (fun e => e.2) _ st _ hk
      (markAllStore_perm seen read now st hscore hnd) hnd2
  rw [readTop, hsort, ← List.map_take, List.map_map]
  have h2 : ∀ e ∈ (sortByDesc (fun e => e.2) st).take max_length,
      ((fun e : AggregatedActivity × Nat => e.1) ∘
        (fun e => if e.1 ∈ (readTop st).filter (markChanged seen read)
          then (mutateAct seen read now e.1, e.2) else e)) e
      = mutateAct seen read now e.1 := by
    intro e he
    have hmem : e.1 ∈ readTop st := List.mem_map_of_mem _ he
    simp only [Function.comp]
    by_cases h : e.1 ∈ (readTop st).filter (markChanged seen read)
    · rw [if_pos h]
    · rw [if_neg h]
      have hchg : markChanged seen read e.1 = false := by
        by_cases hc : markChanged seen read e.1 = true
        · exact absurd (List.mem_filter.mpr ⟨hmem, hc⟩) h
        · simpa using hc
      exact (mutateAct_eq_self seen read now e.1 hchg).symm
  rw [List.map_congr_left h2, readTop, List.map_map]
  rfl

/-! ### Counting lemmas -/

theorem countP_sortTake (key : α → Nat) (p : α → Bool) (l : List α)
    (h : l.length ≤ max_length) :
    ((sortByDesc key l).take max_length).countP p = l.countP p := by
  rw [List.take_of_length_le
    (by rw [(sortByDesc_perm key l).length_eq]; exact h)]
  exact (sortByDesc_perm key l).countP_eq p

/-! ### Output shapes of the operations -/

theorem mark_all_state_store (pubsub seen read : Bool) (now : Nat)
    (s : FeedState) :
    (mark_all pubsub seen read now s).state.store
      = markAllStore seen read now s.store := rfl

theorem mark_all_state_counter (pubsub seen read : Bool) (now : Nat)
    (s : FeedState) :
    (mark_all pubsub seen read now s).state.counter
      = some (.num (((sortByDesc (fun a => a.updated_at)
          ((readTop s.store).map (mutateAct seen read now))).take
            max_length).countP (fun a => !a.isSeen))) := rfl

theorem mark_all_ret (pubsub seen read : Bool) (now : Nat) (s : FeedState) :
    (mark_all pubsub seen read now s).ret
      = sortByDesc (fun a => a.updated_at)
          ((readTop s.store).map (mutateAct seen read now)) := rfl

theorem add_many_state_store (pubsub : Bool)
    (merged : List AggregatedActivity) (s : FeedState) :
    (add_many pubsub merged s).state.store
      = merged.map (fun a => (a, activityScore a)) := rfl

theorem add_many_state_counter (pubsub : Bool)
    (merged : List AggregatedActivity) (s : FeedState) :
    (add_many pubsub merged s).state.counter
      = some (.num (((sortByDesc (fun a => a.updated_at) merged).take
          max_length).countP (fun a => !a.isSeen))) := rfl

/-! ### Lock and interleaving lemmas -/

theorem merge_nil_left : ∀ (ys : List Ev) (t : List (Bool × Ev)),
    Merge [] ys t → t = ys.map (fun e => (false, e)) := by
  intro ys
  induction ys with
  | nil =>
    intro t h
    cases h
    rfl
  | cons y ys ih =>
    intro t h
    cases h with
    | right h' => rw [ih _ h']; rfl

theorem merge_nil_right : ∀ (xs : List Ev) (t : List (Bool × Ev)),
    Merge xs [] t → t = xs.map (fun e => (true, e)) := by
  intro xs
  induction xs with
  | nil =>
    intro t h
    cases h
    rfl
  | cons x xs ih =>
    intro t h
    cases h with
    | left h' => rw [ih _ h']; rfl

theorem lockValidB_nonlock (h : Option Bool) (w : Bool) (e : Ev)
    (t : List (Bool × Ev)) (he : isLockEv e = false) :
    lockValidB h ((w, e) :: t) = lockValidB h t := by
  cases e with
  | lockAcquire k => simp [isLockEv] at he
  | lockRelease => simp [isLockEv] at he
  | storeWrite => cases h <;> rfl
  | storeRemove v => cases h <;> rfl
  | storeAdd p => cases h <;> rfl
  | counterWrite n => cases h <;> rfl
  | publish n => cases h <;> rfl

theorem merge_held_left : ∀ (body1 : List Ev) (t : List (Bool × Ev))
    (k : Nat) (rest2 : List Ev),
    (∀ e ∈ body1, isLockEv e = false) →
    Merge (body1 ++ [Ev.lockRelease]) (Ev.lockAcquire k :: rest2) t →
    lockValidB (some true) t = true →
    t = (body1 ++ [Ev.lockRelease]).map (fun e => (true, e))
        ++ (Ev.lockAcquire k :: rest2).map (fun e => (false, e)) := by
  intro body1
  induction body1 with
  | nil =>
    intro t k rest2 hb hm hv
    cases hm with
    | left hm' =>
      rw [merge_nil_left _ _ hm']
      rfl
    | right hm' => simp [lockValidB] at hv
  | cons e body1 ih =>
    intro t k rest2 hb hm hv
    cases hm with
    | left hm' =>
      have he : isLockEv e = false := hb e (List.mem_cons_self _ _)
      rw [lockValidB_nonlock _ _ _ _ he] at hv
      rw [List.cons_append] at *
      rw [ih _ k rest2 (fun x hx => hb x (List.mem_cons_of_mem e hx))
        hm' hv]
      rfl
    | right hm' => simp [lockValidB] at hv

theorem merge_held_right : ∀ (body2 : List Ev) (t : List (Bool × Ev))
    (k : Nat) (rest1 : List Ev),
    (∀ e ∈ body2, isLockEv e = false) →
    Merge (Ev.lockAcquire k :: rest1) (body2 ++ [Ev.lockRelease]) t →
    lockValidB (some false) t = true →
    t = (body2 ++ [Ev.lockRelease]).map (fun e => (false, e))
        ++ (Ev.lockAcquire k :: rest1).map (fun e => (true, e)) := by
  intro body2
  induction body2 with
  | nil =>
    intro t k rest1 hb hm hv
    cases hm with
    | right hm' =>
      rw [merge_nil_right _ _ hm']
      rfl
    | left hm' => simp [lockValidB] at hv
  | cons e body2 ih =>
    intro t k rest1 hb hm hv
    cases hm with
    | right hm' =>
      have he : isLockEv e = false := hb e (List.mem_cons_self _ _)
      rw [lockValidB_nonlock _ _ _ _ he] at hv
      rw [List.cons_append] at *
      rw [ih _ k rest1 (fun x hx => hb x (List.mem_cons_of_mem e hx))
        hm' hv]
      rfl
    | left hm' => simp [lockValidB] at hv

/-- Under the at-most-one-holder lock contract, a lock-valid interleaving of
two lock-guarded operation traces is one whole trace followed by the other:
their in-lock events never interleave. -/
theorem merge_lock_sequential (body1 body2 : List Ev) (k1 k2 : Nat)
    (t : List (Bool × Ev))
    (h1 : ∀ e ∈ body1, isLockEv e = false)
    (h2 : ∀ e ∈ body2, isLockEv e = false)
    (hm : Merge (Ev.lockAcquire k1 :: body1 ++ [Ev.lockRelease])
                (Ev.lockAcquire k2 :: body2 ++ [Ev.lockRelease]) t)
    (hv : lockValidB none t = true) :
    t = (Ev.lockAcquire k1 :: body1 ++ [Ev.lockRelease]).map
          (fun e => (true, e))
        ++ (Ev.lockAcquire k2 :: body2 ++ [Ev.lockRelease]).map
          (fun e => (false, e))
    ∨ t = (Ev.lockAcquire k2 :: body2 ++ [Ev.lockRelease]).map
          (fun e => (false, e))
        ++ (Ev.lockAcquire k1 :: body1 ++ [Ev.lockRelease]).map
          (fun e => (true, e)) := by
  cases hm with
  | @left _ _ _ t' hm' =>
    left
    have hv' : lockValidB (some true) t' = true := by
      simpa [lockValidB] using hv
    rw [merge_held_left body1 t' k2 _ h1 hm' hv']
    rfl
  | @right _ _ _ t' hm' =>
    right
    have hv' : lockValidB (some false) t' = true := by
      simpa [lockValidB] using hv
    rw [merge_held_right body2 t' k1 _ h2 hm' hv']
    rfl

/-- A fully sequential interleaving always exists. -/
theorem merge_append : ∀ (xs ys : List Ev),
    Merge xs ys (xs.map (fun e => (true, e)) ++ ys.map (fun e => (false, e)))
  := by
  intro xs
  induction xs with
  | nil =>
    intro ys
    induction ys with
    | nil => exact Merge.nil
    | cons y ys ihy => exact Merge.right ihy
  | cons x xs ihx =>
    intro ys
    exact Merge.left (ihx ys)

theorem addManyBody_nonlock (pubsub : Bool)
    (merged : List AggregatedActivity) (s : FeedState) :
    ∀ e ∈ addManyBody pubsub merged s, isLockEv e = false := by
  intro e he
  by_cases hp : pubsub = true
  · simp [addManyBody, denormalize_count, hp] at he
    rcases he with rfl | rfl | rfl | rfl <;> rfl
  · rw [Bool.not_eq_true] at hp
    simp [addManyBody, denormalize_count, hp] at he
    rcases he with rfl | rfl <;> rfl

theorem markAllBody_nonlock (pubsub seen read : Bool) (now : Nat)
    (s : FeedState) :
    ∀ e ∈ markAllBody pubsub seen read now s, isLockEv e = false := by
  intro e he
  simp only [markAllBody, denormalize_count, List.mem_append] at he
  rcases he with (he | he) | he
  · split at he
    · simp at he
    · rw [List.mem_singleton] at he
      rw [he]
      rfl
  · split at he
    · simp at he
    · rw [List.mem_singleton] at he
      rw [he]
      rfl
  · rcases List.mem_cons.mp he with rfl | he'
    · rfl
    · split at he'
      · rw [List.mem_singleton] at he'
        rw [he']
        rfl
      · simp at he'

theorem opBody_nonlock (c : OpCall) :
    ∀ e ∈ opBody c, isLockEv e = false := by
  cases c with
  | addMany pubsub merged s => exact addManyBody_nonlock pubsub merged s
  | markAll pubsub seen read now s =>
      exact markAllBody_nonlock pubsub seen read now s

/-! ### Further helper lemmas -/

theorem insertMany_mem_persist (ps : List (AggregatedActivity × Nat))
    (st : List (AggregatedActivity × Nat)) (q : AggregatedActivity × Nat)
    (hq : q ∈ st) (hps : ∀ r ∈ ps, r.1 ≠ q.1) : q ∈ insertMany ps st := by
  induction ps generalizing st with
  | nil => exact hq
  | cons r rs ih =>
    rw [insertMany_cons]
    refine ih _ ?_ (fun x hx => hps x (List.mem_cons_of_mem r hx))
    refine List.mem_append.mpr (Or.inl ?_)
    refine List.mem_filter.mpr ⟨hq, ?_⟩
    have : r.1 ≠ q.1 := hps r (List.mem_cons_self r rs)
    simp [this]
    exact fun hc => this hc.symm

theorem insertMany_mem_self (ps : List (AggregatedActivity × Nat)) :
    ∀ (st : List (AggregatedActivity × Nat))
      (q : AggregatedActivity × Nat),
      (ps.map (fun p => p.1)).Nodup → q ∈ ps → q ∈ insertMany ps st := by
  induction ps with
  | nil =>
    intro st q _ hq
    simp at hq
  | cons r rs ih =>
    intro st q hnd hq
    obtain ⟨hr, hnd'⟩ := List.pairwise_cons.mp hnd
    rw [insertMany_cons]
    rcases List.mem_cons.mp hq with rfl | hq'
    · refine insertMany_mem_persist rs _ q
        (List.mem_append.mpr (Or.inr (List.mem_singleton.mpr rfl))) ?_
      intro x hx hc
      exact hr x.1 (List.mem_map_of_mem (fun p => p.1) hx) hc.symm
    · exact ih _ q hnd' hq'

theorem mutateAct_isSeen (read : Bool) (now : Nat) (a : AggregatedActivity) :
    (mutateAct true read now a).isSeen = true := by
  rw [AggregatedActivity.isSeen, mutateAct_seen_at]
  by_cases h : a.isSeen = true
  · simp [h]
    rw [AggregatedActivity.isSeen] at h
    exact h
  · rw [Bool.not_eq_true] at h
    simp [h]

theorem markChanged_seen_only (a : AggregatedActivity)
    (h : a.isSeen = true) : markChanged true false a = false := by
  simp [markChanged, h]

theorem FeedState.ext' (a b : FeedState) (h1 : a.store = b.store)
    (h2 : a.counter = b.counter) : a = b := by
  cases a
  cases b
  cases h1
  cases h2
  rfl

/-! ### Claim theorems -/

/-- C7: `get_denormalized_count` for a user whose counter cell has never been
written (absent key) returns 0: `redis.get` yields `None`, `None or 0` is
`0`, and `int(0) = 0`. -/
theorem c7_unset_counter_defaults_to_zero :
    get_denormalized_count FeedState.initial.counter = some 0 := rfl

/-- C2 (counterexample): for a stored counter-cell value that is truthy but
not parseable as an integer, `get_denormalized_count` does not return 0: the
`or 0` guard only catches falsy values, so `int()` receives the corrupt
string and raises `ValueError` (modelled as `none`). -/
theorem c2_counterexample :
    get_denormalized_count (some (.junk "corrupt")) = none
    ∧ get_denormalized_count (some (.junk "corrupt")) ≠ some 0 := by
  constructor
  · rfl
  · intro h
    exact Option.noConfusion h

/-- C2 (amended): `get_denormalized_count` returns 0 for an absent key or a
falsy (empty) stored value and returns the parsed integer of a numeric
value, but a truthy non-numeric value makes `int()` raise `ValueError`
(modelled as `none`) instead of being treated as 0. -/
theorem c2_amended (s : String) (n : Int) :
    get_denormalized_count none = some 0
    ∧ get_denormalized_count (some .empty) = some 0
    ∧ get_denormalized_count (some (.num n)) = some n
    ∧ get_denormalized_count (some (.junk s)) = none :=
  ⟨rfl, rfl, rfl, rfl⟩

/-- C8 (counterexample): `denormalize_count` modifies the caller's
collection: `activities.sort(...)` reorders the caller's list in place, so
after the call the caller's variable no longer holds its original list. -/
theorem c8_counterexample :
    (denormalize_count false FeedState.initial
        [{ activities := [1], updated_at := 1, seen_at := none,
           read_at := none },
         { activities := [2], updated_at := 2, seen_at := none,
           read_at := none }]).activities
      ≠ [{ activities := [1], updated_at := 1, seen_at := none,
           read_at := none },
         { activities := [2], updated_at := 2, seen_at := none,
           read_at := none }] := by
  decide

/-- C8 (amended): the count derivation of `denormalize_count` is a pure
function of the input collection (sort descending by `updated_at`, take the
first `max_length`, count the unseen), and the call leaves the store
untouched, its state effects being exactly the counter write and the
optional publish; but the caller's collection is not left unmodified — it is
reordered in place (stably sorted descending by `updated_at`, a permutation
that mutates no element). -/
theorem c8_amended (pubsub : Bool) (s : FeedState)
    (acts : List AggregatedActivity) :
    (denormalize_count pubsub s acts).count
        = ((sortByDesc (fun a => a.updated_at) acts).take
            max_length).countP (fun a => !a.isSeen)
    ∧ (denormalize_count pubsub s acts).activities
        = sortByDesc (fun a => a.updated_at) acts
    ∧ ((denormalize_count pubsub s acts).activities).Perm acts
    ∧ (denormalize_count pubsub s acts).state.store = s.store
    ∧ (denormalize_count pubsub s acts).state.counter
        = some (.num ((denormalize_count pubsub s acts).count))
    ∧ (denormalize_count pubsub s acts).trace
        = .counterWrite ((denormalize_count pubsub s acts).count)
          :: (if pubsub
              then [.publish ((denormalize_count pubsub s acts).count)]
              else []) :=
  ⟨rfl, rfl, sortByDesc_perm _ _, rfl, rfl, rfl⟩

/-- C5: in `mark_all`, an entry is mutated only when the corresponding flag
is requested and the entry is not already marked — `seen_at` becomes the
current time exactly when `seen` is requested and `is_seen()` was false,
`read_at` exactly when `read` is requested and `is_read()` was false, all
other fields are untouched; an entry with neither field changed is left
entirely untouched and the swap set consists exactly of the changed
entries. -/
theorem c5_mark_all_frame (seen read : Bool) (now : Nat)
    (a : AggregatedActivity) (acts : List AggregatedActivity) :
    ((mutateAct seen read now a).seen_at
        = if seen && !a.isSeen then some now else a.seen_at)
    ∧ ((mutateAct seen read now a).read_at
        = if read && !a.isRead then some now else a.read_at)
    ∧ (mutateAct seen read now a).updated_at = a.updated_at
    ∧ (mutateAct seen read now a).activities = a.activities
    ∧ (mutateAct seen read now a = a ↔ markChanged seen read a = false)
    ∧ (markChanged seen read a = true
        ↔ ((seen = true ∧ a.seen_at = none)
            ∨ (read = true ∧ a.read_at = none)))
    ∧ ((markAllPairs seen read now acts).map (fun p => p.1)
        = acts.filter (markChanged seen read)) := by
  refine ⟨mutateAct_seen_at seen read now a,
    mutateAct_read_at seen read now a,
    mutateAct_updated_at seen read now a,
    mutateAct_activities seen read now a, ?_, ?_,
    markAllPairs_fst seen read now acts⟩
  · constructor
    · intro h
      by_cases hc : markChanged seen read a = true
      · exact absurd h (mutateAct_ne_self seen read now a hc)
      · simpa using hc
    · exact mutateAct_eq_self seen read now a
  · cases hs : a.seen_at <;> cases hr : a.read_at <;>
      simp [markChanged, AggregatedActivity.isSeen,
        AggregatedActivity.isRead, hs, hr]

/-- C6: within every single mutating operation with a configured notify
channel, each published value equals the count written to the counter cell
by that same operation (there is exactly one counter write per operation),
and every publish occurs strictly after that counter write in the issue
order of the trace. -/
theorem c6_publish_after_write (merged : List AggregatedActivity)
    (s1 : FeedState) (seen read : Bool) (now : Nat) (s2 : FeedState) :
    (publishesMatchWrites none (add_many true merged s1).trace = true
      ∧ traceCounterWrites (add_many true merged s1).trace
          = [((sortByDesc (fun a => a.updated_at) merged).take
              max_length).countP (fun a => !a.isSeen)])
    ∧ (publishesMatchWrites none (mark_all true seen read now s2).trace
          = true
      ∧ traceCounterWrites (mark_all true seen read now s2).trace
          = [((sortByDesc (fun a => a.updated_at)
              ((readTop s2.store).map (mutateAct seen read now))).take
                max_length).countP (fun a => !a.isSeen)]) := by
  constructor
  · constructor
    · simp [add_many, addManyBody, denormalize_count, publishesMatchWrites]
    · rfl
  · cases hmp : markAllPairs seen read now (readTop s2.store) with
    | nil =>
      constructor
      · simp [mark_all, markAllBody, denormalize_count,
          publishesMatchWrites, hmp]
      · simp [mark_all, markAllBody, denormalize_count, count_unseen,
          traceCounterWrites, hmp]
    | cons p ps =>
      constructor
      · simp [mark_all, markAllBody, denormalize_count,
          publishesMatchWrites, hmp]
      · simp [mark_all, markAllBody, denormalize_count, count_unseen,
          traceCounterWrites, hmp]

/-- C10: with a configured pubsub channel, `add_many` publishes the count
exactly twice — once inside `denormalize_count` and once again from
`add_many` itself — both publishes carrying exactly the count value written
to the counter cell; `mark_all` publishes exactly once, from within
`denormalize_count`. -/
theorem c10_double_publish (merged : List AggregatedActivity)
    (s1 : FeedState) (seen read : Bool) (now : Nat) (s2 : FeedState) :
    (∃ c : Nat, (add_many true merged s1).state.counter = some (.num c)
      ∧ tracePublishes (add_many true merged s1).trace = [c, c])
    ∧ (∃ c : Nat, (mark_all true seen read now s2).state.counter
          = some (.num c)
      ∧ tracePublishes (mark_all true seen read now s2).trace = [c]) := by
  constructor
  · refine ⟨_, rfl, ?_⟩
    simp [add_many, addManyBody, denormalize_count, count_unseen,
      tracePublishes]
  · refine ⟨_, rfl, ?_⟩
    cases hmp : markAllPairs seen read now (readTop s2.store) with
    | nil =>
      simp [mark_all, markAllBody, denormalize_count, count_unseen,
        tracePublishes, hmp]
    | cons p ps =>
      simp [mark_all, markAllBody, denormalize_count, count_unseen,
        tracePublishes, hmp]

/-- C9: a lock-guarded mutating operation (`add_many` or `mark_all`) issues
its entire multi-step mutation between acquiring the per-user lock (hold
timeout 2) and releasing it on exit, and under the lock's
at-most-one-holder-per-user contract, any valid interleaving of two such
operations for the same user is one operation's whole trace followed by the
other's: their store mutations never interleave. -/
theorem c9_mutual_exclusion (c1 c2 : OpCall) (t : List (Bool × Ev))
    (hm : Merge (opTrace c1) (opTrace c2) t)
    (hv : lockValidB none t = true) :
    (∀ c : OpCall, opTrace c = .lockAcquire 2 :: opBody c ++ [.lockRelease]
      ∧ ∀ e ∈ opBody c, isLockEv e = false)
    ∧ (t = (opTrace c1).map (fun e => (true, e))
          ++ (opTrace c2).map (fun e => (false, e))
      ∨ t = (opTrace c2).map (fun e => (false, e))
          ++ (opTrace c1).map (fun e => (true, e))) := by
  refine ⟨fun c => ⟨rfl, opBody_nonlock c⟩, ?_⟩
  exact merge_lock_sequential (opBody c1) (opBody c2) 2 2 t
    (opBody_nonlock c1) (opBody_nonlock c2) hm hv

/-- C9 (witness): a concrete lock-valid interleaving of a `mark_all` call
and an `add_many` call, at which the mutual-exclusion theorem applies. -/
theorem c9_mutual_exclusion_witness :
    lockValidB none
      ((opTrace (.markAll true true false 5 FeedState.initial)).map
          (fun e => (true, e))
        ++ (opTrace (.addMany true
            [{ activities := [1], updated_at := 3, seen_at := none,
               read_at := none }] FeedState.initial)).map
          (fun e => (false, e))) = true
    ∧ ((opTrace (.markAll true true false 5 FeedState.initial)).map
          (fun e => (true, e))
        ++ (opTrace (.addMany true
            [{ activities := [1], updated_at := 3, seen_at := none,
               read_at := none }] FeedState.initial)).map
          (fun e => (false, e))
      = (opTrace (.markAll true true false 5 FeedState.initial)).map
          (fun e => (true, e))
        ++ (opTrace (.addMany true
            [{ activities := [1], updated_at := 3, seen_at := none,
               read_at := none }] FeedState.initial)).map
          (fun e => (false, e))
      ∨ (opTrace (.markAll true true false 5 FeedState.initial)).map
          (fun e => (true, e))
        ++ (opTrace (.addMany true
            [{ activities := [1], updated_at := 3, seen_at := none,
               read_at := none }] FeedState.initial)).map
          (fun e => (false, e))
      = (opTrace (.addMany true
            [{ activities := [1], updated_at := 3, seen_at := none,
               read_at := none }] FeedState.initial)).map
          (fun e => (false, e))
        ++ (opTrace (.markAll true true false 5 FeedState.initial)).map
          (fun e => (true, e))) := by
  constructor
  · decide
  · exact (c9_mutual_exclusion
      (.markAll true true false 5 FeedState.initial)
      (.addMany true
        [{ activities := [1], updated_at := 3, seen_at := none,
           read_at := none }] FeedState.initial)
      _ (merge_append _ _) (by decide)).2

/-- C1: after a successful `add_many` or `mark_all`, the value returned by
`get_denormalized_count` equals the number of entries among the top
`max_length` stored entries, ordered descending by `updated_at`, whose
`is_seen()` is false; and `denormalize_count` both returns and writes
exactly this count of the collection it is given.  For `mark_all` the
ranking keys of the stored entries are assumed pairwise distinct and the
stored scores to satisfy the score invariant, since score ties are broken
by the external store. -/
theorem c1_count_consistency (pubsub seen read : Bool) (now : Nat)
    (merged : List AggregatedActivity) (s1 s2 : FeedState)
    (hscore : ∀ e ∈ s2.store, e.2 = e.1.updated_at)
    (hnd : (s2.store.map (fun e => e.1.updated_at)).Nodup) :
    (get_denormalized_count (add_many pubsub merged s1).state.counter
      = some ((((sortByDesc (fun a => a.updated_at)
          ((add_many pubsub merged s1).state.store.map (fun e => e.1))).take
            max_length).countP (fun a => !a.isSeen) : Nat) : Int))
    ∧ (get_denormalized_count
          (mark_all pubsub seen read now s2).state.counter
      = some ((((sortByDesc (fun a => a.updated_at)
          ((mark_all pubsub seen read now s2).state.store.map
            (fun e => e.1))).take max_length).countP
              (fun a => !a.isSeen) : Nat) : Int))
    ∧ (∀ s acts, (denormalize_count pubsub s acts).count
          = ((sortByDesc (fun a => a.updated_at) acts).take
              max_length).countP (fun a => !a.isSeen)
        ∧ (denormalize_count pubsub s acts).state.counter
          = some (.num ((denormalize_count pubsub s acts).count))) := by
  refine ⟨?_, ?_, fun s acts => ⟨rfl, rfl⟩⟩
  · have h1 : (add_many pubsub merged s1).state.store.map (fun e => e.1)
        = merged := by
      rw [add_many_state_store, List.map_map]
      exact List.map_id' _
    rw [h1, add_many_state_counter]
    rfl
  · have hscore' : ∀ e ∈ markAllStore seen read now s2.store,
        e.2 = e.1.updated_at :=
      markAllStore_scoreInv seen read now s2.store hscore
    have hlen : ((readTop s2.store).map
        (mutateAct seen read now)).length ≤ max_length := by
      rw [List.length_map]
      exact readTop_length_le s2.store
    have hcount : ((sortByDesc (fun a => a.updated_at)
        ((readTop s2.store).map (mutateAct seen read now))).take
          max_length).countP (fun a => !a.isSeen)
        = ((readTop s2.store).map (mutateAct seen read now)).countP
            (fun a => !a.isSeen) :=
      countP_sortTake _ _ _ hlen
    have hclaim : (sortByDesc (fun a => a.updated_at)
        ((mark_all pubsub seen read now s2).state.store.map
          (fun e => e.1))).take max_length
        = readTop (markAllStore seen read now s2.store) := by
      rw [mark_all_state_store]
      exact readTop_eq_sortUpd _ hscore'
    rw [mark_all_state_counter, hcount, hclaim,
      markAllStore_readTop seen read now s2.store hscore hnd]
    rfl

/-- C1 (witness): the count-consistency theorem applied to a concrete
one-entry feed. -/
theorem c1_count_consistency_witness :
    (get_denormalized_count (add_many true [demoUnseen]
        FeedState.initial).state.counter
      = some ((((sortByDesc (fun a => a.updated_at)
          ((add_many true [demoUnseen]
            FeedState.initial).state.store.map (fun e => e.1))).take
            max_length).countP (fun a => !a.isSeen) : Nat) : Int))
    ∧ (get_denormalized_count
          (mark_all true true false 9 demoState).state.counter
      = some ((((sortByDesc (fun a => a.updated_at)
          ((mark_all true true false 9 demoState).state.store.map
            (fun e => e.1))).take max_length).countP
              (fun a => !a.isSeen) : Nat) : Int))
    ∧ (∀ s acts, (denormalize_count true s acts).count
          = ((sortByDesc (fun a => a.updated_at) acts).take
              max_length).countP (fun a => !a.isSeen)
        ∧ (denormalize_count true s acts).state.counter
          = some (.num ((denormalize_count true s acts).count))) :=
  c1_count_consistency true true false 9 [demoUnseen] FeedState.initial
    demoState (by decide) (by decide)

/-- C3: `mark_all` never leaves both the prior and the new serialized form
of a changed entry in the store: for every swap pair, after the call no
stored entry carries the prior value (it was removed by value), the new
`(value, score)` pair is present, and the whole swap was issued as exactly
one batched remove of all prior forms followed by one batched insert of all
new pairs.  The ranking keys of the stored entries are assumed pairwise
distinct, since ties are broken by the external store. -/
theorem c3_value_identity_swap (pubsub seen read : Bool) (now : Nat)
    (s : FeedState)
    (hnd : (s.store.map (fun e => e.1.updated_at)).Nodup)
    (p : AggregatedActivity × AggregatedActivity)
    (hp : p ∈ markAllPairs seen read now (readTop s.store)) :
    (∀ e ∈ (mark_all pubsub seen read now s).state.store, e.1 ≠ p.1)
    ∧ (p.2, activityScore p.2) ∈ (mark_all pubsub seen read now s).state.store
    ∧ traceRemoves (mark_all pubsub seen read now s).trace
        = [(markAllPairs seen read now (readTop s.store)).map (fun q => q.1)]
    ∧ traceAdds (mark_all pubsub seen read now s).trace
        = [(markAllPairs seen read now (readTop s.store)).map
            (fun q => (q.2, activityScore q.2))] := by
  rw [markAllPairs_eq] at hp
  obtain ⟨a, haf, rfl⟩ := List.mem_map.mp hp
  obtain ⟨hatop, hachg⟩ := List.mem_filter.mp haf
  have hTne : (readTop s.store).filter (markChanged seen read) ≠ [] :=
    List.ne_nil_of_mem haf
  have hstore : (mark_all pubsub seen read now s).state.store
      = insertMany
          (((readTop s.store).filter (markChanged seen read)).map
            (fun o => (mutateAct seen read now o,
              activityScore (mutateAct seen read now o))))
          (removeMany ((readTop s.store).filter (markChanged seen read))
            s.store) := by
    rw [mark_all_state_store, markAllStore_unfold,
      if_neg (by rw [Bool.not_eq_true, List.isEmpty_eq_false]; exact hTne)]
  have hnewNodup : ((((readTop s.store).filter
      (markChanged seen read)).map
        (fun o => (mutateAct seen read now o,
          activityScore (mutateAct seen read now o)))).map
            (fun q => q.1)).Nodup := by
    rw [List.map_map]
    have h1 : (((readTop s.store).filter (markChanged seen read)).map
        (fun o => o.updated_at)).Nodup :=
      List.Nodup.sublist
        (List.Sublist.map _ (List.filter_sublist _))
        (readTop_upd_nodup s.store hnd)
    have h2 : (((readTop s.store).filter (markChanged seen read)).map
        (fun o => ((fun o => (mutateAct seen read now o,
            activityScore (mutateAct seen read now o))) o).1)).Nodup := by
      refine List.Nodup.of_map (fun a => a.updated_at) ?_
      rw [List.map_map]
      have h3 : ∀ o ∈ (readTop s.store).filter (markChanged seen read),
          ((fun a => a.updated_at) ∘ (fun o =>
            ((fun o => (mutateAct seen read now o,
              activityScore (mutateAct seen read now o))) o).1)) o
          = o.updated_at := by
        intro o _
        exact mutateAct_updated_at seen read now o
      rw [List.map_congr_left h3]
      exact h1
    exact h2
  refine ⟨?_, ?_, ?_, ?_⟩
  · intro e he hc
    rw [hstore] at he
    rcases insertMany_mem e he with h | h
    · have h' : e ∈ s.store.filter (fun e =>
          decide (e.1 ∉ (readTop s.store).filter
            (markChanged seen read))) := h
      have heT : e.1 ∉ (readTop s.store).filter (markChanged seen read) :=
        of_decide_eq_true (List.mem_filter.mp h').2
      rw [hc] at heT
      exact heT haf
    · obtain ⟨o, _, rfl⟩ := List.mem_map.mp h
      exact old_ne_new seen read now a o hachg hc
  · rw [hstore]
    refine insertMany_mem_self _ _ _ hnewNodup
      (List.mem_map_of_mem _ haf)
  · cases hmp : markAllPairs seen read now (readTop s.store) with
    | nil =>
      rw [markAllPairs_eq] at hmp
      rw [hmp] at hp
      simp at hp
    | cons q qs =>
      cases pubsub <;>
        simp [mark_all, markAllBody, denormalize_count, traceRemoves, hmp]
  · cases hmp : markAllPairs seen read now (readTop s.store) with
    | nil =>
      rw [markAllPairs_eq] at hmp
      rw [hmp] at hp
      simp at hp
    | cons q qs =>
      cases pubsub <;>
        simp [mark_all, markAllBody, denormalize_count, traceAdds, hmp]

/-- C3 (witness): the value-identity-swap theorem applied to a concrete
one-entry unseen feed marked as seen. -/
theorem c3_value_identity_swap_witness :
    (∀ e ∈ (mark_all true true false 9 demoState).state.store,
      e.1 ≠ demoUnseen)
    ∧ (mutateAct true false 9 demoUnseen,
        activityScore (mutateAct true false 9 demoUnseen))
        ∈ (mark_all true true false 9 demoState).state.store
    ∧ traceRemoves (mark_all true true false 9 demoState).trace
        = [(markAllPairs true false 9 (readTop demoState.store)).map
            (fun q => q.1)]
    ∧ traceAdds (mark_all true true false 9 demoState).trace
        = [(markAllPairs true false 9 (readTop demoState.store)).map
            (fun q => (q.2, activityScore q.2))] :=
  c3_value_identity_swap true true false 9 demoState (by decide)
    (demoUnseen, mutateAct true false 9 demoUnseen) (by decide)

/-- C4: calling `mark_all(seen=True)` twice in succession yields the same
final feed state (store and counter) and the same returned collection as
calling it once: the second call's swap set is empty, so it issues no store
mutation, yet it still recomputes, rewrites and republishes the unchanged
count — its trace is exactly lock, counter write, publish, unlock with the
same count the first call wrote.  The ranking keys of the stored entries
are assumed pairwise distinct and the scores to satisfy the score
invariant, since ties are broken by the external store. -/
theorem c4_mark_all_idempotent (now1 now2 : Nat) (s : FeedState)
    (hscore : ∀ e ∈ s.store, e.2 = e.1.updated_at)
    (hnd : (s.store.map (fun e => e.1.updated_at)).Nodup) :
    (mark_all true true false now2
        (mark_all true true false now1 s).state).state
      = (mark_all true true false now1 s).state
    ∧ (mark_all true true false now2
        (mark_all true true false now1 s).state).ret
      = (mark_all true true false now1 s).ret
    ∧ markAllPairs true false now2
        (readTop (mark_all true true false now1 s).state.store) = []
    ∧ (∃ c : Nat,
        (mark_all true true false now1 s).state.counter = some (.num c)
        ∧ (mark_all true true false now2
            (mark_all true true false now1 s).state).trace
          = [.lockAcquire 2, .counterWrite c, .publish c,
             .lockRelease]) := by
  have hrt : readTop (mark_all true true false now1 s).state.store
      = (readTop s.store).map (mutateAct true false now1) :=
    markAllStore_readTop true false now1 s.store hscore hnd
  have hseen : ∀ a ∈ (readTop s.store).map (mutateAct true false now1),
      a.isSeen = true := by
    intro a ha
    obtain ⟨b, _, rfl⟩ := List.mem_map.mp ha
    exact mutateAct_isSeen false now1 b
  have hfil : (readTop
      (mark_all true true false now1 s).state.store).filter
        (markChanged true false) = [] := by
    rw [hrt]
    refine List.filter_eq_nil_iff.mpr ?_
    intro a ha
    rw [markChanged_seen_only a (hseen a ha)]
    simp
  have hpairs2 : markAllPairs true false now2
      (readTop (mark_all true true false now1 s).state.store) = [] := by
    rw [markAllPairs_eq, hfil]
    rfl
  have hmut2 : (readTop
      (mark_all true true false now1 s).state.store).map
        (mutateAct true false now2)
      = (readTop s.store).map (mutateAct true false now1) := by
    rw [hrt]
    have h1 : ∀ a ∈ (readTop s.store).map (mutateAct true false now1),
        mutateAct true false now2 a = a := by
      intro a ha
      exact mutateAct_eq_self true false now2 a
        (markChanged_seen_only a (hseen a ha))
    rw [List.map_congr_left h1, List.map_id']
  have hstore2 : (mark_all true true false now2
      (mark_all true true false now1 s).state).state.store
      = (mark_all true true false now1 s).state.store := by
    rw [mark_all_state_store]
    exact markAllStore_empty true false now2 _ hfil
  refine ⟨?_, ?_, hpairs2, ?_⟩
  · refine FeedState.ext' _ _ hstore2 ?_
    rw [mark_all_state_counter, mark_all_state_counter, hmut2]
  · rw [mark_all_ret, mark_all_ret, hmut2]
  · refine ⟨_, rfl, ?_⟩
    have hpairs2' : markAllPairs true false now2
        (readTop (markAllStore true false now1 s.store)) = [] := hpairs2
    have hmut2' : (readTop (markAllStore true false now1 s.store)).map
        (mutateAct true false now2)
        = (readTop s.store).map (mutateAct true false now1) := hmut2
    simp only [mark_all, markAllBody, denormalize_count, count_unseen,
      hpairs2', List.map_nil, List.isEmpty_nil, if_true, List.nil_append,
      hmut2']
    rfl

/-- C4 (witness): the idempotence theorem applied to a concrete one-entry
unseen feed, with different clock values for the two calls. -/
theorem c4_mark_all_idempotent_witness :
    (mark_all true true false 11
        (mark_all true true false 9 demoState).state).state
      = (mark_all true true false 9 demoState).state
    ∧ (mark_all true true false 11
        (mark_all true true false 9 demoState).state).ret
      = (mark_all true true false 9 demoState).ret
    ∧ markAllPairs true false 11
        (readTop (mark_all true true false 9 demoState).state.store) = []
    ∧ (∃ c : Nat,
        (mark_all true true false 9 demoState).state.counter
          = some (.num c)
        ∧ (mark_all true true false 11
            (mark_all true true false 9 demoState).state).trace
          = [.lockAcquire 2, .counterWrite c, .publish c,
             .lockRelease]) :=
  c4_mark_all_idempotent 9 11 demoState (by decide) (by decide)
